import Mathlib

/-!
Shallow embedding of the two utilities of the repository
rejected-by-javascript that carry a behavioural contract, both living in
src/quests/js-native-throttling.js:

* `createAsyncQueue`: a concurrency-limited asynchronous task queue with
  add / pause / resume / clear / onIdle / onError /
  getRunningTasksCount / getPendingTasksCount;
* `throttle`: a rate-limiting wrapper with leading/trailing options and
  a `cancel` method.

JavaScript is single threaded: every externally observable step (an
`add` call, the `.finally` continuation of a finished task promise, a
`setTimeout` callback, a user call of the throttled wrapper, ...) runs
atomically to completion.  Each utility is therefore modelled as a
deterministic state machine driven by a list of events.
-/

namespace AsyncQueue

/-- State of the queue created by `createAsyncQueue`.  Tasks are
identified by natural numbers.  `taskQueue`, `running`, `isPaused` and
`concurrency` mirror the closure variables of the source (`running`
keeps the identities of the tasks whose promise is still pending, so
`running.length` is the source's `runningTasks` counter).  The idle
promise is modelled by a generation counter: `idleGen` is the
generation of the promise currently stored in the `idlePromise`
variable (every `add` replaces that promise, which increments the
generation) and `resolvedGens` lists the generations whose promise has
been resolved via `resolveIdle()`.  `handlerSet`, `handled` and
`logged` model the user-settable `onError` callback and the default
`console.error` branch (errors are identified by naturals), and
`started` records, in order, every task that `runNext` has handed to
`task()`. -/
structure QueueState where
  concurrency : Nat
  taskQueue : List Nat
  running : List Nat
  isPaused : Bool
  idleGen : Nat
  resolvedGens : List Nat
  handlerSet : Bool
  handled : List Nat
  logged : List Nat
  started : List Nat
deriving DecidableEq, Repr

/-- The loop performed by the recursive `runNext` calls of the source:
while the queue is not paused, `runningTasks < concurrency` and tasks
are pending, shift the front task off `taskQueue` and start it.
Returns the new `taskQueue`, `running` and `started`. -/
def runLoop (c : Nat) (paused : Bool) :
    List Nat → List Nat → List Nat → List Nat × List Nat × List Nat
  | [], running, started => ([], running, started)
  | t :: rest, running, started =>
    if paused = true ∨ c ≤ running.length then (t :: rest, running, started)
    else runLoop c paused rest (running ++ [t]) (started ++ [t])

/-- `runNext` of the source, as a state transformer.  It only touches
`taskQueue`, `running` and `started`; the recursion of the source
(`runNext()` at the end of the body plus the `runNext()` inside
`.finally`) amounts to the loop `runLoop`. -/
def runNext (s : QueueState) : QueueState :=
  { s with
    taskQueue := (runLoop s.concurrency s.isPaused s.taskQueue s.running s.started).1
    running := (runLoop s.concurrency s.isPaused s.taskQueue s.running s.started).2.1
    started := (runLoop s.concurrency s.isPaused s.taskQueue s.running s.started).2.2 }

/-- The `.catch` handler of a task settled with `err`: a rejection is
handed to `throttledQueue.onError` when the user installed a handler,
and to `console.error` otherwise.  A fulfilled task (`err = none`)
reports nothing. -/
def recordError (s : QueueState) (err : Option Nat) : QueueState :=
  match err with
  | none => s
  | some e =>
    if s.handlerSet then { s with handled := s.handled ++ [e] }
    else { s with logged := s.logged ++ [e] }

/-- The idle check inside `.finally`: when no task is running and the
queue is empty, `resolveIdle()` resolves the current idle promise. -/
def resolveIdleIfIdle (s : QueueState) : QueueState :=
  if s.running = [] ∧ s.taskQueue = [] then
    { s with resolvedGens := s.resolvedGens ++ [s.idleGen] }
  else s

/-- External events driving the queue.  `complete t err` is the
settlement of running task `t`'s promise (fulfilled when `err = none`,
rejected with error `err = some e` otherwise), which runs the
`.catch`/`.finally` continuations.  `setOnError` models the user
assigning a function to `queue.onError`. -/
inductive QEvent where
  | add (t : Nat)
  | complete (t : Nat) (err : Option Nat)
  | pause
  | resume
  | clear
  | setOnError
deriving DecidableEq, Repr

/-- One atomic step of the queue.  Each branch mirrors the
corresponding method of the source: `add` pushes, calls `runNext` and
then replaces the idle promise; a settlement runs `.catch` (error
reporting), decrements `runningTasks`, resolves the idle promise when
the queue became idle, and calls `runNext`; `pause` sets the flag;
`resume` clears it and calls `runNext` (only when paused); `clear`
empties `taskQueue`.  A `complete` for a task that is not running
cannot happen in JavaScript and is a no-op here. -/
def qstep (s : QueueState) : QEvent → QueueState
  | .add t =>
    { runNext { s with taskQueue := s.taskQueue ++ [t] } with idleGen := s.idleGen + 1 }
  | .complete t err =>
    if t ∈ s.running then
      runNext (resolveIdleIfIdle
        { recordError s err with running := s.running.erase t })
    else s
  | .pause => { s with isPaused := true }
  | .resume => if s.isPaused then runNext { s with isPaused := false } else s
  | .clear => { s with taskQueue := [] }
  | .setOnError => { s with handlerSet := true }

/-- The queue right after `createAsyncQueue({concurrency := c})`. -/
def initQueue (c : Nat) : QueueState :=
  { concurrency := c, taskQueue := [], running := [], isPaused := false,
    idleGen := 0, resolvedGens := [], handlerSet := false,
    handled := [], logged := [], started := [] }

/-- Run a list of events from a state. -/
def qrun (s : QueueState) : List QEvent → QueueState
  | [] => s
  | e :: tr => qrun (qstep s e) tr

/-- The tasks submitted by the `add` calls of a trace, in order. -/
def submittedTasks : List QEvent → List Nat
  | [] => []
  | .add t :: tr => t :: submittedTasks tr
  | _ :: tr => submittedTasks tr

/-- The observable outcome of calling `onIdle()` in state `s`: `none`
when the queue is idle (the source returns the already resolved
`Promise.resolve()`), otherwise the generation of the idle promise the
caller receives (that promise is resolved exactly when its generation
enters `resolvedGens`). -/
def onIdleResult (s : QueueState) : Option Nat :=
  if s.running = [] ∧ s.taskQueue = [] then none else some s.idleGen

end AsyncQueue

namespace Throttle

/-- The data a call of the throttled wrapper carries, as captured by
the closure of the `setTimeout` callback in the source: the instant of
the call (`time`, in ms; for the record stored in `timer` this field is
the scheduled expiry `call time + wait` instead), the `this` binding
(`ctx`, the `context` variable of the source) and the argument list
(`args`).  Contexts and argument lists are identified by naturals. -/
structure CallData where
  time : Nat
  ctx : Nat
  args : Nat
deriving DecidableEq, Repr

/-- The configuration fixed by `throttle(func, wait, options)`:
`leading` and `trailing` default to `true` in the source, `wait` is a
non-negative number of milliseconds. -/
structure ThrottleCfg where
  leading : Bool
  trailing : Bool
  wait : Nat
deriving DecidableEq, Repr

/-- State of the wrapper returned by `throttle`.  `inThrottle` and
`lastFn` mirror the closure variables of the source (`lastFn` only
ever holds `func` or `null`, so a boolean records whether it is set);
`lastTime` mirrors the `lastTime` variable (which the source writes
but never reads).  `timer` is the pending `setTimeout`, holding its
expiry instant and the `context`/`args` captured from the call that
armed it; `clearTimeout` makes it `none`.  `curTime` is the current
clock (ms) and `fired`, most recent first, records every invocation
`func.apply(context, args)` the wrapper performed, with its instant,
`this` binding and arguments. -/
structure ThrState where
  inThrottle : Bool
  lastFn : Bool
  lastTime : Option Nat
  timer : Option CallData
  curTime : Nat
  fired : List CallData
deriving DecidableEq, Repr

/-- The body of the `throttled` function of the source, for a call at
instant `t` with `this` binding `x` and arguments `a`: outside a
throttle window a leading configuration invokes `func` immediately and
a non-leading one records the call in `lastFn`/`lastTime`, and
`inThrottle` is set; inside a window the call is recorded in
`lastFn`/`lastTime`.  Either way the pending timeout is cleared and a
new one armed `wait` ms from now, capturing this call's data. -/
def throttledCall (cfg : ThrottleCfg) (s : ThrState) (t x a : Nat) : ThrState :=
  let s1 :=
    if s.inThrottle = false then
      if cfg.leading then
        { s with fired := ⟨t, x, a⟩ :: s.fired, inThrottle := true }
      else
        { s with lastFn := true, lastTime := some t, inThrottle := true }
    else
      { s with lastFn := true, lastTime := some t }
  { s1 with timer := some ⟨t + cfg.wait, x, a⟩, curTime := t }

/-- The `setTimeout` callback of the source firing: if `trailing` is
set and a call was recorded (`lastFn`), `func` is invoked with the
captured `context` and `args`, and `lastFn` is cleared; in every case
`inThrottle` is reset, `lastTime` cleared and the timer is spent.
Without a pending timer nothing can fire. -/
def timerFire (cfg : ThrottleCfg) (s : ThrState) : ThrState :=
  match s.timer with
  | none => s
  | some c =>
    let s1 :=
      if cfg.trailing && s.lastFn then
        { s with fired := c :: s.fired, lastFn := false }
      else s
    { s1 with inThrottle := false, lastTime := none, timer := none,
              curTime := c.time }

/-- `throttled.cancel()` of the source at instant `t`: clear the
pending timeout and reset `inThrottle`, `lastFn` and `lastTime`.  No
invocation of `func` happens. -/
def throttledCancel (s : ThrState) (t : Nat) : ThrState :=
  { s with timer := none, inThrottle := false, lastFn := false,
           lastTime := none, curTime := t }

/-- External events driving the wrapper: a user call of `throttled`
(at instant `t`, with `this` binding `x` and arguments `a`), the
expiry of the pending timeout at instant `t`, and `throttled.cancel()`
at instant `t`. -/
inductive TEvent where
  | call (t x a : Nat)
  | fire (t : Nat)
  | cancel (t : Nat)
deriving DecidableEq, Repr

/-- One atomic step of the wrapper. -/
def tstep (cfg : ThrottleCfg) (s : ThrState) : TEvent → ThrState
  | .call t x a => throttledCall cfg s t x a
  | .fire _ => timerFire cfg s
  | .cancel t => throttledCancel s t

/-- Whether an event can happen next: time never goes backwards, a
pending timeout expires exactly at its scheduled instant, so no event
can be later than a still-pending timer, and `fire` requires a pending
timer due exactly now. -/
def tvalid (s : ThrState) : TEvent → Bool
  | .call t _ _ =>
    decide (s.curTime ≤ t) &&
      (match s.timer with
       | some c => decide (t ≤ c.time)
       | none => true)
  | .fire t =>
    decide (s.curTime ≤ t) &&
      (match s.timer with
       | some c => decide (t = c.time)
       | none => false)
  | .cancel t =>
    decide (s.curTime ≤ t) &&
      (match s.timer with
       | some c => decide (t ≤ c.time)
       | none => true)

/-- Whether a whole trace of events is possible from state `s`. -/
def tvalidTrace (cfg : ThrottleCfg) (s : ThrState) : List TEvent → Bool
  | [] => true
  | e :: tr => tvalid s e && tvalidTrace cfg (tstep cfg s e) tr

/-- Run a list of events from a state. -/
def trun (cfg : ThrottleCfg) (s : ThrState) : List TEvent → ThrState
  | [] => s
  | e :: tr => trun cfg (tstep cfg s e) tr

/-- The wrapper right after `throttle(func, wait, options)` returns:
no window open, nothing recorded, no pending timeout. -/
def thrInit : ThrState :=
  { inThrottle := false, lastFn := false, lastTime := none,
    timer := none, curTime := 0, fired := [] }

/-- The instants of the invocations performed so far, most recent
first. -/
def firedTimes (s : ThrState) : List Nat := s.fired.map CallData.time

/-- `spaced1 w l` states that the instants of `l` (most recent first)
are pairwise at least `w` apart between consecutive entries: this is
the formal reading of "`func` is invoked at most once within any time
window of `w` ms". -/
def spaced1 (w : Nat) : List Nat → Bool
  | a :: b :: l => decide (b + w ≤ a) && spaced1 w (b :: l)
  | _ => true

/-- `spaced2 w l` states that among the instants of `l` (most recent
first) any entry and the entry two places before it are at least `w`
apart: at most two invocations fall within any window of `w` ms. -/
def spaced2 (w : Nat) : List Nat → Bool
  | a :: b :: c :: l => decide (c + w ≤ a) && spaced2 w (b :: c :: l)
  | _ => true

/-- The times of `l`, most recent first, are bounded by `cap` and
nonincreasing. -/
def timesLe (cap : Nat) : List Nat → Prop
  | [] => True
  | a :: l => a ≤ cap ∧ timesLe a l

/-- The most recent instant of `l`, plus `w`, is at most `bound`
(vacuous for an empty history). -/
def headGapLe (w bound : Nat) : List Nat → Prop
  | [] => True
  | a :: _ => a + w ≤ bound

/-- The second most recent instant of `l`, plus `w`, is at most
`bound` (vacuous for a history shorter than two). -/
def secondGapLe (w bound : Nat) : List Nat → Prop
  | _ :: b :: _ => b + w ≤ bound
  | _ => True

/-- The trace contains no `cancel` event (it only consists of calls to
the wrapper and timer expiries). -/
def noCancel : List TEvent → Bool
  | [] => true
  | .cancel _ :: _ => false
  | _ :: tr => noCancel tr

/-- Reachability invariant of the wrapper (in the absence of
`cancel`): the invocation history is time-ordered, any three
consecutive invocations span at least `wait`, inside a window the
pending timer lies in the future and at least `wait` after the most
recent invocation, and outside a window no timer is pending and the
second most recent invocation happened at least `wait` ago. -/
def ThrInv (cfg : ThrottleCfg) (s : ThrState) : Prop :=
  timesLe s.curTime (firedTimes s) ∧
  spaced2 cfg.wait (firedTimes s) = true ∧
  (s.inThrottle = false →
    s.timer = none ∧ secondGapLe cfg.wait s.curTime (firedTimes s)) ∧
  (s.inThrottle = true →
    ∃ c : CallData, s.timer = some c ∧ s.curTime ≤ c.time ∧
      headGapLe cfg.wait c.time (firedTimes s))

end Throttle

namespace AsyncQueue

/-- A paused queue with one pending task and free capacity, used to
exercise the pause/resume properties on a concrete state. -/
def pausedQueue : QueueState :=
  { concurrency := 1, taskQueue := [5], running := [], isPaused := true,
    idleGen := 3, resolvedGens := [], handlerSet := false,
    handled := [], logged := [], started := [7] }

/-- A queue with an installed error handler, one running task and one
pending task, used to exercise the error-forwarding property on a
concrete state. -/
def busyQueue : QueueState :=
  { concurrency := 1, taskQueue := [4], running := [3], isPaused := false,
    idleGen := 2, resolvedGens := [], handlerSet := true,
    handled := [], logged := [], started := [3] }

end AsyncQueue

namespace Throttle

/-- A wrapper state in the middle of a throttle window with a recorded
trailing call (a leading call at 0 followed by a call at 5, wait 10),
used to exercise the trailing-edge property on a concrete state. -/
def midWindow : ThrState :=
  trun ⟨true, true, 10⟩ thrInit [TEvent.call 0 0 1, TEvent.call 5 0 2]

/-- Another mid-window wrapper state (wait 20), used to exercise the
cancel property on a concrete state. -/
def midWindow2 : ThrState :=
  trun ⟨true, true, 20⟩ thrInit [TEvent.call 0 3 4, TEvent.call 6 3 5]

end Throttle

namespace AsyncQueue

theorem runLoop_cons_go (c : Nat) (p : Bool) (t : Nat) (rest r st : List Nat)
    (hg : ¬(p = true ∨ c ≤ r.length)) :
    runLoop c p (t :: rest) r st = runLoop c p rest (r ++ [t]) (st ++ [t]) := by
  simp only [runLoop]
  rw [if_neg hg]

theorem runLoop_cons_stop (c : Nat) (p : Bool) (t : Nat) (rest r st : List Nat)
    (hg : p = true ∨ c ≤ r.length) :
    runLoop c p (t :: rest) r st = (t :: rest, r, st) := by
  simp only [runLoop]
  rw [if_pos hg]

theorem runLoop_running_le (c : Nat) (p : Bool) (q : List Nat) :
    ∀ r st : List Nat, r.length ≤ c → (runLoop c p q r st).2.1.length ≤ c := by
  induction q with
  | nil => intro r st h; simpa [runLoop] using h
  | cons t rest ih =>
    intro r st h
    by_cases hg : p = true ∨ c ≤ r.length
    · rw [runLoop_cons_stop c p t rest r st hg]; exact h
    · rw [runLoop_cons_go c p t rest r st hg]
      have hlt : r.length < c := lt_of_not_le (fun hc => hg (Or.inr hc))
      exact ih (r ++ [t]) (st ++ [t]) (by simpa [List.length_append] using hlt)

theorem runLoop_paused (c : Nat) (q r st : List Nat) :
    runLoop c true q r st = (q, r, st) := by
  cases q with
  | nil => rfl
  | cons t rest => exact runLoop_cons_stop c true t rest r st (Or.inl rfl)

theorem runLoop_join (c : Nat) (p : Bool) (q : List Nat) :
    ∀ r st : List Nat,
      (runLoop c p q r st).2.2 ++ (runLoop c p q r st).1 = st ++ q := by
  induction q with
  | nil => intro r st; simp [runLoop]
  | cons t rest ih =>
    intro r st
    by_cases hg : p = true ∨ c ≤ r.length
    · rw [runLoop_cons_stop c p t rest r st hg]
    · rw [runLoop_cons_go c p t rest r st hg]
      simpa [List.append_assoc] using ih (r ++ [t]) (st ++ [t])

theorem runLoop_started_ext (c : Nat) (p : Bool) (q : List Nat) :
    ∀ r st : List Nat, ∃ l : List Nat, (runLoop c p q r st).2.2 = st ++ l := by
  induction q with
  | nil => intro r st; exact ⟨[], by simp [runLoop]⟩
  | cons t rest ih =>
    intro r st
    by_cases hg : p = true ∨ c ≤ r.length
    · exact ⟨[], by rw [runLoop_cons_stop c p t rest r st hg]; simp⟩
    · obtain ⟨l, hl⟩ := ih (r ++ [t]) (st ++ [t])
      refine ⟨t :: l, ?_⟩
      rw [runLoop_cons_go c p t rest r st hg]
      simpa [List.append_assoc] using hl

theorem runLoop_start_front (c : Nat) (u : Nat) (rest r st : List Nat)
    (hc : r.length < c) :
    ∃ l : List Nat, (runLoop c false (u :: rest) r st).2.2 = st ++ u :: l := by
  obtain ⟨l, hl⟩ := runLoop_started_ext c false rest (r ++ [u]) (st ++ [u])
  refine ⟨l, ?_⟩
  rw [runLoop_cons_go c false u rest r st (by simp [not_le.mpr hc])]
  simpa [List.append_assoc] using hl

theorem runNext_concurrency (s : QueueState) :
    (runNext s).concurrency = s.concurrency := rfl

theorem runNext_isPaused (s : QueueState) : (runNext s).isPaused = s.isPaused := rfl

theorem runNext_idleGen (s : QueueState) : (runNext s).idleGen = s.idleGen := rfl

theorem runNext_resolvedGens (s : QueueState) :
    (runNext s).resolvedGens = s.resolvedGens := rfl

theorem runNext_handled (s : QueueState) : (runNext s).handled = s.handled := rfl

theorem runNext_logged (s : QueueState) : (runNext s).logged = s.logged := rfl

theorem runNext_running_le (s : QueueState) (h : s.running.length ≤ s.concurrency) :
    (runNext s).running.length ≤ s.concurrency :=
  runLoop_running_le s.concurrency s.isPaused s.taskQueue s.running s.started h

theorem runNext_join (s : QueueState) :
    (runNext s).started ++ (runNext s).taskQueue = s.started ++ s.taskQueue := by
  simpa [runNext] using
    runLoop_join s.concurrency s.isPaused s.taskQueue s.running s.started

theorem runNext_paused (s : QueueState) (h : s.isPaused = true) : runNext s = s := by
  cases s with
  | mk c q r ip ig rg hs hd lg st =>
    simp only at h
    subst h
    simp [runNext, runLoop_paused]

theorem recordError_frame (s : QueueState) (err : Option Nat) :
    (recordError s err).concurrency = s.concurrency ∧
    (recordError s err).taskQueue = s.taskQueue ∧
    (recordError s err).running = s.running ∧
    (recordError s err).isPaused = s.isPaused ∧
    (recordError s err).idleGen = s.idleGen ∧
    (recordError s err).resolvedGens = s.resolvedGens ∧
    (recordError s err).handlerSet = s.handlerSet ∧
    (recordError s err).started = s.started := by
  cases err with
  | none => exact ⟨rfl, rfl, rfl, rfl, rfl, rfl, rfl, rfl⟩
  | some e =>
    by_cases h : s.handlerSet = true <;>
      simp [recordError, h]

theorem recordError_handled_set (s : QueueState) (e : Nat)
    (h : s.handlerSet = true) :
    (recordError s (some e)).handled = s.handled ++ [e] ∧
    (recordError s (some e)).logged = s.logged := by
  simp [recordError, h]

theorem recordError_handled_unset (s : QueueState) (e : Nat)
    (h : s.handlerSet = false) :
    (recordError s (some e)).handled = s.handled ∧
    (recordError s (some e)).logged = s.logged ++ [e] := by
  simp [recordError, h]

theorem resolveIdleIfIdle_frame (s : QueueState) :
    (resolveIdleIfIdle s).concurrency = s.concurrency ∧
    (resolveIdleIfIdle s).taskQueue = s.taskQueue ∧
    (resolveIdleIfIdle s).running = s.running ∧
    (resolveIdleIfIdle s).isPaused = s.isPaused ∧
    (resolveIdleIfIdle s).idleGen = s.idleGen ∧
    (resolveIdleIfIdle s).handlerSet = s.handlerSet ∧
    (resolveIdleIfIdle s).handled = s.handled ∧
    (resolveIdleIfIdle s).logged = s.logged ∧
    (resolveIdleIfIdle s).started = s.started := by
  unfold resolveIdleIfIdle
  split <;> simp

theorem resolveIdleIfIdle_gens_idle (s : QueueState)
    (h : s.running = [] ∧ s.taskQueue = []) :
    (resolveIdleIfIdle s).resolvedGens = s.resolvedGens ++ [s.idleGen] := by
  simp [resolveIdleIfIdle, h]

theorem resolveIdleIfIdle_gens_busy (s : QueueState)
    (h : ¬(s.running = [] ∧ s.taskQueue = [])) :
    (resolveIdleIfIdle s).resolvedGens = s.resolvedGens := by
  simp only [resolveIdleIfIdle, if_neg h]

theorem qstep_complete_mem (s : QueueState) (t : Nat) (err : Option Nat)
    (ht : t ∈ s.running) :
    qstep s (QEvent.complete t err) =
      runNext (resolveIdleIfIdle
        { recordError s err with running := s.running.erase t }) := by
  simp [qstep, ht]

theorem qstep_concurrency (s : QueueState) (e : QEvent) :
    (qstep s e).concurrency = s.concurrency := by
  cases e with
  | add t => rfl
  | complete t err =>
    by_cases ht : t ∈ s.running
    · rw [qstep_complete_mem s t err ht, runNext_concurrency]
      exact ((resolveIdleIfIdle_frame _).1).trans (recordError_frame s err).1
    · simp [qstep, ht]
  | pause => rfl
  | resume =>
    by_cases hp : s.isPaused = true <;> simp [qstep, hp, runNext_concurrency]
  | clear => rfl
  | setOnError => rfl

theorem qstep_running_le (s : QueueState) (e : QEvent)
    (h : s.running.length ≤ s.concurrency) :
    (qstep s e).running.length ≤ (qstep s e).concurrency := by
  rw [qstep_concurrency]
  cases e with
  | add t =>
    simpa [qstep, runNext] using
      runLoop_running_le s.concurrency s.isPaused (s.taskQueue ++ [t])
        s.running s.started h
  | complete t err =>
    by_cases ht : t ∈ s.running
    · rw [qstep_complete_mem s t err ht]
      set s2 := resolveIdleIfIdle { recordError s err with running := s.running.erase t } with hs2
      have hrun : s2.running = s.running.erase t := (resolveIdleIfIdle_frame _).2.2.1
      have hcon : s2.concurrency = s.concurrency :=
        ((resolveIdleIfIdle_frame _).1).trans (recordError_frame s err).1
      have hle : s2.running.length ≤ s2.concurrency := by
        rw [hrun, hcon]
        exact le_trans (List.Sublist.length_le (List.erase_sublist t s.running)) h
      have := runNext_running_le s2 hle
      rwa [hcon] at this
    · simpa [qstep, ht] using h
  | pause => simpa [qstep] using h
  | resume =>
    by_cases hp : s.isPaused = true
    · simpa [qstep, hp, runNext] using
        runLoop_running_le s.concurrency false s.taskQueue s.running s.started h
    · simpa [qstep, hp] using h
  | clear => simpa [qstep] using h
  | setOnError => simpa [qstep] using h

theorem qrun_running_le (tr : List QEvent) :
    ∀ s : QueueState, s.running.length ≤ s.concurrency →
      (qrun s tr).running.length ≤ (qrun s tr).concurrency := by
  induction tr with
  | nil => intro s h; exact h
  | cons e tr ih => intro s h; exact ih (qstep s e) (qstep_running_le s e h)

theorem qrun_concurrency (tr : List QEvent) :
    ∀ s : QueueState, (qrun s tr).concurrency = s.concurrency := by
  induction tr with
  | nil => intro s; rfl
  | cons e tr ih => intro s; rw [qrun, ih, qstep_concurrency]

theorem runNext_nil (s : QueueState) (h : s.taskQueue = []) : runNext s = s := by
  cases s with
  | mk c q r ip ig rg hs hd lg st =>
    simp only at h
    subst h
    simp [runNext, runLoop]

theorem qstep_complete_join (s : QueueState) (t : Nat) (err : Option Nat) :
    (qstep s (QEvent.complete t err)).started ++
      (qstep s (QEvent.complete t err)).taskQueue = s.started ++ s.taskQueue := by
  by_cases ht : t ∈ s.running
  · rw [qstep_complete_mem s t err ht, runNext_join]
    have h1 := (resolveIdleIfIdle_frame
      { recordError s err with running := s.running.erase t })
    rw [h1.2.2.2.2.2.2.2.2, h1.2.1]
    show (recordError s err).started ++ (recordError s err).taskQueue
      = s.started ++ s.taskQueue
    rw [(recordError_frame s err).2.2.2.2.2.2.2, (recordError_frame s err).2.1]
  · simp [qstep, ht]

theorem qrun_join_sublist (tr : List QEvent) :
    ∀ (s : QueueState) (L : List Nat), (s.started ++ s.taskQueue).Sublist L →
      ((qrun s tr).started ++ (qrun s tr).taskQueue).Sublist
        (L ++ submittedTasks tr) := by
  induction tr with
  | nil => intro s L h; simpa [qrun, submittedTasks] using h
  | cons e tr ih =>
    intro s L h
    cases e with
    | add t =>
      have hj : (qstep s (QEvent.add t)).started ++
          (qstep s (QEvent.add t)).taskQueue = (s.started ++ s.taskQueue) ++ [t] := by
        have := runNext_join { s with taskQueue := s.taskQueue ++ [t] }
        simpa [qstep, List.append_assoc] using this
      have hsub : ((qstep s (QEvent.add t)).started ++
          (qstep s (QEvent.add t)).taskQueue).Sublist (L ++ [t]) := by
        rw [hj]; exact h.append (List.Sublist.refl [t])
      simpa [qrun, submittedTasks, List.append_assoc] using
        ih (qstep s (QEvent.add t)) (L ++ [t]) hsub
    | complete t err =>
      have hsub : ((qstep s (QEvent.complete t err)).started ++
          (qstep s (QEvent.complete t err)).taskQueue).Sublist L := by
        rw [qstep_complete_join]; exact h
      simpa [qrun, submittedTasks] using
        ih (qstep s (QEvent.complete t err)) L hsub
    | pause =>
      simpa [qrun, submittedTasks] using ih (qstep s QEvent.pause) L (by simpa [qstep] using h)
    | resume =>
      have hsub : ((qstep s QEvent.resume).started ++
          (qstep s QEvent.resume).taskQueue).Sublist L := by
        by_cases hp : s.isPaused = true
        · simp only [qstep, if_pos hp]
          rw [runNext_join]
          exact h
        · simp only [qstep, if_neg hp]
          exact h
      simpa [qrun, submittedTasks] using ih (qstep s QEvent.resume) L hsub
    | clear =>
      have hsub : ((qstep s QEvent.clear).started ++
          (qstep s QEvent.clear).taskQueue).Sublist L := by
        have h1 : ((qstep s QEvent.clear).started ++
            (qstep s QEvent.clear).taskQueue) = s.started := by simp [qstep]
        rw [h1]
        exact (List.sublist_append_left s.started s.taskQueue).trans h
      simpa [qrun, submittedTasks] using ih (qstep s QEvent.clear) L hsub
    | setOnError =>
      simpa [qrun, submittedTasks] using
        ih (qstep s QEvent.setOnError) L (by simpa [qstep] using h)

theorem qstep_resolved_sound (s : QueueState) (e : QEvent) (g : Nat)
    (hg : g ∈ (qstep s e).resolvedGens) :
    g ∈ s.resolvedGens ∨
      ((qstep s e).running = [] ∧ (qstep s e).taskQueue = []) := by
  cases e with
  | add t =>
    left
    have : (qstep s (QEvent.add t)).resolvedGens = s.resolvedGens := rfl
    rwa [this] at hg
  | complete t err =>
    by_cases ht : t ∈ s.running
    · rw [qstep_complete_mem s t err ht] at hg ⊢
      set x := { recordError s err with running := s.running.erase t } with hx
      by_cases hi : x.running = [] ∧ x.taskQueue = []
      · right
        have hfix : runNext (resolveIdleIfIdle x) = resolveIdleIfIdle x :=
          runNext_nil _ (((resolveIdleIfIdle_frame x).2.1).trans hi.2)
        rw [hfix, (resolveIdleIfIdle_frame x).2.2.1, (resolveIdleIfIdle_frame x).2.1]
        exact hi
      · left
        rw [runNext_resolvedGens, resolveIdleIfIdle_gens_busy x hi] at hg
        have : x.resolvedGens = s.resolvedGens := (recordError_frame s err).2.2.2.2.2.1
        rwa [this] at hg
    · left
      simp only [qstep, if_neg ht] at hg
      exact hg
  | pause => left; exact hg
  | resume =>
    left
    by_cases hp : s.isPaused = true
    · simp only [qstep, if_pos hp, runNext_resolvedGens] at hg
      exact hg
    · simp only [qstep, if_neg hp] at hg
      exact hg
  | clear => left; exact hg
  | setOnError => left; exact hg

theorem qstep_resolves_current (s : QueueState) (t : Nat) (err : Option Nat)
    (hmem : t ∈ s.running) (hall : s.running.erase t = []) (hq : s.taskQueue = []) :
    s.idleGen ∈ (qstep s (QEvent.complete t err)).resolvedGens := by
  rw [qstep_complete_mem s t err hmem, runNext_resolvedGens]
  set x := { recordError s err with running := s.running.erase t } with hx
  have hxr : x.running = s.running.erase t := rfl
  have hxq : x.taskQueue = s.taskQueue := (recordError_frame s err).2.1
  rw [resolveIdleIfIdle_gens_idle x ⟨by rw [hxr, hall], by rw [hxq, hq]⟩]
  have hg : x.idleGen = s.idleGen := (recordError_frame s err).2.2.2.2.1
  rw [hg]
  exact List.mem_append_right _ (List.mem_singleton.mpr rfl)

end AsyncQueue

namespace Throttle

theorem throttledCall_in (cfg : ThrottleCfg) (s : ThrState) (t x a : Nat)
    (hin : s.inThrottle = true) :
    throttledCall cfg s t x a =
      { s with lastFn := true, lastTime := some t,
               timer := some ⟨t + cfg.wait, x, a⟩, curTime := t } := by
  simp [throttledCall, hin]

theorem throttledCall_lead (cfg : ThrottleCfg) (s : ThrState) (t x a : Nat)
    (hin : s.inThrottle = false) (hl : cfg.leading = true) :
    throttledCall cfg s t x a =
      { s with fired := ⟨t, x, a⟩ :: s.fired, inThrottle := true,
               timer := some ⟨t + cfg.wait, x, a⟩, curTime := t } := by
  simp [throttledCall, hin, hl]

theorem throttledCall_nolead (cfg : ThrottleCfg) (s : ThrState) (t x a : Nat)
    (hin : s.inThrottle = false) (hl : cfg.leading = false) :
    throttledCall cfg s t x a =
      { s with lastFn := true, lastTime := some t, inThrottle := true,
               timer := some ⟨t + cfg.wait, x, a⟩, curTime := t } := by
  simp [throttledCall, hin, hl]

theorem timerFire_go (cfg : ThrottleCfg) (s : ThrState) (c : CallData)
    (h : s.timer = some c) (htr : (cfg.trailing && s.lastFn) = true) :
    timerFire cfg s =
      { s with fired := c :: s.fired, lastFn := false, inThrottle := false,
               lastTime := none, timer := none, curTime := c.time } := by
  simp [timerFire, h, htr]

theorem timerFire_skip (cfg : ThrottleCfg) (s : ThrState) (c : CallData)
    (h : s.timer = some c) (htr : (cfg.trailing && s.lastFn) = false) :
    timerFire cfg s =
      { s with inThrottle := false, lastTime := none, timer := none,
               curTime := c.time } := by
  simp [timerFire, h, htr]

theorem timesLe_mono (cap cap' : Nat) (l : List Nat)
    (h : timesLe cap l) (hle : cap ≤ cap') : timesLe cap' l := by
  cases l with
  | nil => trivial
  | cons a l => exact ⟨le_trans h.1 hle, h.2⟩

theorem headGapLe_mono (w b b' : Nat) (l : List Nat)
    (h : headGapLe w b l) (hle : b ≤ b') : headGapLe w b' l := by
  cases l with
  | nil => trivial
  | cons a l => exact le_trans h hle

theorem headGapLe_of_cap (w cap bound : Nat) (l : List Nat)
    (hm : timesLe cap l) (h : cap + w ≤ bound) : headGapLe w bound l := by
  cases l with
  | nil => trivial
  | cons a l2 => exact le_trans (Nat.add_le_add_right hm.1 w) h

theorem secondGapLe_of_head (w bound cap : Nat) (l : List Nat)
    (hm : timesLe cap l) (hh : headGapLe w bound l) : secondGapLe w bound l := by
  cases l with
  | nil => trivial
  | cons a l =>
    cases l with
    | nil => trivial
    | cons b l2 => exact le_trans (Nat.add_le_add_right hm.2.1 w) hh

theorem secondGapLe_cons (w bound x : Nat) (l : List Nat)
    (h : headGapLe w bound l) : secondGapLe w bound (x :: l) := by
  cases l with
  | nil => trivial
  | cons a l2 => exact h

theorem secondGapLe_mono (w b b' : Nat) (l : List Nat)
    (h : secondGapLe w b l) (hle : b ≤ b') : secondGapLe w b' l := by
  cases l with
  | nil => trivial
  | cons a l =>
    cases l with
    | nil => trivial
    | cons b2 l2 => exact le_trans h hle

theorem spaced2_cons (w x : Nat) (l : List Nat)
    (hs : spaced2 w l = true) (hgap : secondGapLe w x l) :
    spaced2 w (x :: l) = true := by
  cases l with
  | nil => rfl
  | cons a l =>
    cases l with
    | nil => rfl
    | cons b l2 =>
      simp only [spaced2, Bool.and_eq_true, decide_eq_true_eq]
      exact ⟨hgap, hs⟩

theorem ThrInv_init (cfg : ThrottleCfg) : ThrInv cfg thrInit := by
  refine ⟨trivial, rfl, fun _ => ⟨rfl, trivial⟩, fun h => ?_⟩
  exact absurd h (by simp [thrInit])

theorem ThrInv_call (cfg : ThrottleCfg) (s : ThrState) (t x a : Nat)
    (inv : ThrInv cfg s) (hv : tvalid s (TEvent.call t x a) = true) :
    ThrInv cfg (throttledCall cfg s t x a) := by
  obtain ⟨hm, hs2, hfree, hbusy⟩ := inv
  have hvs : s.curTime ≤ t := by
    simp only [tvalid, Bool.and_eq_true, decide_eq_true_eq] at hv
    exact hv.1
  by_cases hin : s.inThrottle = true
  · obtain ⟨c, hc, hcT, hhg⟩ := hbusy hin
    rw [throttledCall_in cfg s t x a hin]
    refine ⟨timesLe_mono _ _ _ hm hvs, hs2, ?_, ?_⟩
    · intro hfalse
      exact absurd (hin.symm.trans hfalse) (by simp)
    · intro _
      refine ⟨⟨t + cfg.wait, x, a⟩, rfl, Nat.le_add_right t cfg.wait, ?_⟩
      exact headGapLe_of_cap cfg.wait s.curTime (t + cfg.wait) (firedTimes s)
        hm (Nat.add_le_add_right hvs cfg.wait)
  · have hfin : s.inThrottle = false := by
      revert hin; cases s.inThrottle <;> simp
    obtain ⟨htm, hsg⟩ := hfree hfin
    by_cases hl : cfg.leading = true
    · rw [throttledCall_lead cfg s t x a hfin hl]
      have hmt : timesLe t (firedTimes s) := timesLe_mono _ _ _ hm hvs
      refine ⟨?_, ?_, ?_, ?_⟩
      · exact ⟨le_refl t, hmt⟩
      · exact spaced2_cons cfg.wait t (firedTimes s) hs2
          (secondGapLe_mono cfg.wait s.curTime t (firedTimes s) hsg hvs)
      · intro hfalse
        exact absurd hfalse (by simp)
      · intro _
        refine ⟨⟨t + cfg.wait, x, a⟩, rfl, Nat.le_add_right t cfg.wait, ?_⟩
        exact Nat.add_le_add_right (le_refl t) cfg.wait
    · have hlf : cfg.leading = false := by
        revert hl; cases cfg.leading <;> simp
      rw [throttledCall_nolead cfg s t x a hfin hlf]
      refine ⟨timesLe_mono _ _ _ hm hvs, hs2, ?_, ?_⟩
      · intro hfalse
        exact absurd hfalse (by simp)
      · intro _
        refine ⟨⟨t + cfg.wait, x, a⟩, rfl, Nat.le_add_right t cfg.wait, ?_⟩
        exact headGapLe_of_cap cfg.wait s.curTime (t + cfg.wait) (firedTimes s)
          hm (Nat.add_le_add_right hvs cfg.wait)

theorem ThrInv_fire (cfg : ThrottleCfg) (s : ThrState) (t : Nat)
    (inv : ThrInv cfg s) (hv : tvalid s (TEvent.fire t) = true) :
    ThrInv cfg (timerFire cfg s) := by
  obtain ⟨hm, hs2, hfree, hbusy⟩ := inv
  cases htm : s.timer with
  | none => rw [tvalid, htm] at hv; simp at hv
  | some c =>
    have hin : s.inThrottle = true := by
      by_contra hnin
      have hf := hfree (by revert hnin; cases s.inThrottle <;> simp)
      rw [htm] at hf
      exact absurd hf.1 (by simp)
    obtain ⟨c', hc', hcT, hhg⟩ := hbusy hin
    rw [htm] at hc'
    have hcc : c' = c := by injection hc' with h; exact h.symm
    subst hcc
    by_cases htr : (cfg.trailing && s.lastFn) = true
    · rw [timerFire_go cfg s c' htm htr]
      have hmc : timesLe c'.time (firedTimes s) := timesLe_mono _ _ _ hm hcT
      refine ⟨⟨le_refl _, hmc⟩, ?_, ?_, ?_⟩
      · exact spaced2_cons cfg.wait c'.time (firedTimes s) hs2
          (secondGapLe_of_head cfg.wait c'.time s.curTime (firedTimes s) hm hhg)
      · intro _
        exact ⟨rfl, secondGapLe_cons cfg.wait c'.time c'.time (firedTimes s) hhg⟩
      · intro htrue
        exact absurd htrue (by simp)
    · have htrf : (cfg.trailing && s.lastFn) = false := by
        revert htr; cases (cfg.trailing && s.lastFn) <;> simp
      rw [timerFire_skip cfg s c' htm htrf]
      refine ⟨timesLe_mono _ _ _ hm hcT, hs2, ?_, ?_⟩
      · intro _
        exact ⟨rfl, secondGapLe_of_head cfg.wait c'.time s.curTime (firedTimes s) hm hhg⟩
      · intro htrue
        exact absurd htrue (by simp)

theorem ThrInv_run (cfg : ThrottleCfg) (tr : List TEvent) :
    ∀ s : ThrState, ThrInv cfg s → noCancel tr = true →
      tvalidTrace cfg s tr = true → ThrInv cfg (trun cfg s tr) := by
  induction tr with
  | nil => intro s inv _ _; exact inv
  | cons e tr ih =>
    intro s inv hnc hv
    have hv1 : tvalid s e = true ∧ tvalidTrace cfg (tstep cfg s e) tr = true := by
      simpa [tvalidTrace, Bool.and_eq_true] using hv
    cases e with
    | call t x a =>
      exact ih (tstep cfg s (TEvent.call t x a))
        (ThrInv_call cfg s t x a inv hv1.1)
        (by simpa [noCancel] using hnc) hv1.2
    | fire t =>
      exact ih (tstep cfg s (TEvent.fire t))
        (ThrInv_fire cfg s t inv hv1.1)
        (by simpa [noCancel] using hnc) hv1.2
    | cancel t => simp [noCancel] at hnc

end Throttle

open AsyncQueue Throttle

/-- C1: for the queue returned by `createAsyncQueue({concurrency})` (which
requires a positive concurrency), after every sequence of add, pause,
resume, clear, onError-installation events and task settlements, the
number of currently executing tasks, as reported by
`getRunningTasksCount`, is at most `concurrency`. -/
theorem C1_running_at_most_concurrency (c : Nat) (tr : List QEvent)
    (hc : 0 < c) :
    (qrun (initQueue c) tr).running.length ≤ c := by
  have h0 : (initQueue c).running.length ≤ (initQueue c).concurrency := by
    simp [initQueue]
  have h := qrun_running_le tr (initQueue c) h0
  rwa [qrun_concurrency] at h

theorem C1_running_at_most_concurrency_witness :
    0 < 2 ∧ (qrun (initQueue 2)
      [QEvent.add 0, QEvent.add 1, QEvent.add 2]).running.length ≤ 2 :=
  ⟨by decide,
   C1_running_at_most_concurrency 2
     [QEvent.add 0, QEvent.add 1, QEvent.add 2] (by decide)⟩

/-- C4: tasks are started in FIFO submission order: along every event
trace, the sequence of tasks handed to execution (`started`) is a
subsequence of the sequence of tasks submitted via `add`, and even
`started` followed by the still-pending queue is such a subsequence, so
no later-submitted task ever starts before an earlier-submitted one
that is still pending. -/
theorem C4_fifo_start_order (c : Nat) (tr : List QEvent) :
    ((qrun (initQueue c) tr).started).Sublist (submittedTasks tr) ∧
    ((qrun (initQueue c) tr).started ++
      (qrun (initQueue c) tr).taskQueue).Sublist (submittedTasks tr) := by
  have h := qrun_join_sublist tr (initQueue c) [] (by simp [initQueue])
  simp only [List.nil_append] at h
  exact ⟨(List.sublist_append_left _ _).trans h, h⟩

/-- C8: while the queue is paused, no event other than `resume` starts
a task (`started` is unchanged by add, settlement and clear), pausing
does not abort running tasks (`running` is untouched by `pause`), and
`resume` on a paused queue clears the flag and, when there is capacity
and a pending task, immediately starts at least one task. -/
theorem C8_pause_resume (s : QueueState) (t : Nat) (err : Option Nat)
    (h : s.isPaused = true) :
    (qstep s (QEvent.add t)).started = s.started ∧
    (qstep s (QEvent.complete t err)).started = s.started ∧
    (qstep s QEvent.clear).started = s.started ∧
    (qstep s QEvent.pause).running = s.running ∧
    (qstep s QEvent.resume).isPaused = false ∧
    (s.running.length < s.concurrency → s.taskQueue ≠ [] →
      s.started.length < (qstep s QEvent.resume).started.length) := by
  refine ⟨?_, ?_, ?_, rfl, ?_, ?_⟩
  · show (runNext { s with taskQueue := s.taskQueue ++ [t] }).started = s.started
    rw [runNext_paused { s with taskQueue := s.taskQueue ++ [t] } h]
  · by_cases ht : t ∈ s.running
    · have hp2 : (resolveIdleIfIdle
          { recordError s err with running := s.running.erase t }).isPaused = true := by
        rw [(resolveIdleIfIdle_frame _).2.2.2.1]
        show (recordError s err).isPaused = true
        rw [(recordError_frame s err).2.2.2.1]
        exact h
      rw [qstep_complete_mem s t err ht, runNext_paused _ hp2]
      rw [(resolveIdleIfIdle_frame _).2.2.2.2.2.2.2.2]
      exact (recordError_frame s err).2.2.2.2.2.2.2
    · simp [qstep, ht]
  · rfl
  · simp only [qstep, if_pos h]
    rfl
  · intro hcap hq
    obtain ⟨u, rest, hqe⟩ : ∃ u rest, s.taskQueue = u :: rest := by
      cases hqq : s.taskQueue with
      | nil => exact absurd hqq hq
      | cons u rest => exact ⟨u, rest, rfl⟩
    simp only [qstep, if_pos h]
    have hfld : (runNext { s with isPaused := false }).started
        = (runLoop s.concurrency false s.taskQueue s.running s.started).2.2 := rfl
    rw [hfld, hqe]
    obtain ⟨l, hl⟩ := runLoop_start_front s.concurrency u rest s.running s.started hcap
    rw [hl]
    simp only [List.length_append, List.length_cons]
    omega

theorem C8_pause_resume_witness :
    (qstep pausedQueue (QEvent.add 7)).started = pausedQueue.started ∧
    (qstep pausedQueue (QEvent.complete 7 none)).started = pausedQueue.started ∧
    (qstep pausedQueue QEvent.clear).started = pausedQueue.started ∧
    (qstep pausedQueue QEvent.pause).running = pausedQueue.running ∧
    (qstep pausedQueue QEvent.resume).isPaused = false ∧
    (pausedQueue.running.length < pausedQueue.concurrency →
      pausedQueue.taskQueue ≠ [] →
      pausedQueue.started.length <
        (qstep pausedQueue QEvent.resume).started.length) :=
  C8_pause_resume pausedQueue 7 none (by decide)

/-- C9: `clear()` removes exactly the not-yet-started tasks and nothing
else: afterwards the pending queue is empty while the running tasks,
the paused flag, the concurrency limit and the start history are
unchanged. -/
theorem C9_clear_frame (s : QueueState) :
    (qstep s QEvent.clear).taskQueue = [] ∧
    (qstep s QEvent.clear).running = s.running ∧
    (qstep s QEvent.clear).isPaused = s.isPaused ∧
    (qstep s QEvent.clear).concurrency = s.concurrency ∧
    (qstep s QEvent.clear).started = s.started :=
  ⟨rfl, rfl, rfl, rfl, rfl⟩

/-- C10: when a running task's promise rejects, the error is handed to
the user-supplied `onError` callback when one is set and to
`console.error` otherwise, it is not re-thrown, the running count is
still decremented (with an empty pending queue the new running set is
exactly the old one minus the settled task), and when the queue is not
paused and capacity remains, the next pending task is started. -/
theorem C10_error_forwarding (s : QueueState) (t e u : Nat) (rest : List Nat)
    (hmem : t ∈ s.running) :
    (s.handlerSet = true →
      (qstep s (QEvent.complete t (some e))).handled = s.handled ++ [e] ∧
      (qstep s (QEvent.complete t (some e))).logged = s.logged) ∧
    (s.handlerSet = false →
      (qstep s (QEvent.complete t (some e))).handled = s.handled ∧
      (qstep s (QEvent.complete t (some e))).logged = s.logged ++ [e]) ∧
    (s.taskQueue = [] →
      (qstep s (QEvent.complete t (some e))).running = s.running.erase t) ∧
    (s.isPaused = false → s.taskQueue = u :: rest →
      (s.running.erase t).length < s.concurrency →
      ∃ l : List Nat,
        (qstep s (QEvent.complete t (some e))).started = s.started ++ u :: l) := by
  rw [qstep_complete_mem s t (some e) hmem]
  set x := { recordError s (some e) with running := s.running.erase t } with hx
  have hfr := resolveIdleIfIdle_frame x
  refine ⟨?_, ?_, ?_, ?_⟩
  · intro hh
    rw [runNext_handled, runNext_logged, hfr.2.2.2.2.2.2.1, hfr.2.2.2.2.2.2.2.1]
    exact ⟨(recordError_handled_set s e hh).1, (recordError_handled_set s e hh).2⟩
  · intro hh
    rw [runNext_handled, runNext_logged, hfr.2.2.2.2.2.2.1, hfr.2.2.2.2.2.2.2.1]
    exact ⟨(recordError_handled_unset s e hh).1, (recordError_handled_unset s e hh).2⟩
  · intro hq
    have hxq : (resolveIdleIfIdle x).taskQueue = [] := by
      rw [hfr.2.1]
      show (recordError s (some e)).taskQueue = []
      rw [(recordError_frame s (some e)).2.1]
      exact hq
    rw [runNext_nil _ hxq, hfr.2.2.1]
  · intro hp hq hcap
    have harg : (runNext (resolveIdleIfIdle x)).started
        = (runLoop s.concurrency s.isPaused s.taskQueue
            (s.running.erase t) s.started).2.2 := by
      show (runLoop (resolveIdleIfIdle x).concurrency (resolveIdleIfIdle x).isPaused
        (resolveIdleIfIdle x).taskQueue (resolveIdleIfIdle x).running
        (resolveIdleIfIdle x).started).2.2 = _
      rw [hfr.1, hfr.2.1, hfr.2.2.1, hfr.2.2.2.1, hfr.2.2.2.2.2.2.2.2]
      show (runLoop (recordError s (some e)).concurrency (recordError s (some e)).isPaused
        (recordError s (some e)).taskQueue (s.running.erase t)
        (recordError s (some e)).started).2.2 = _
      have hre := recordError_frame s (some e)
      rw [hre.1, hre.2.1, hre.2.2.2.1, hre.2.2.2.2.2.2.2]
    rw [harg, hp, hq]
    exact runLoop_start_front s.concurrency u rest (s.running.erase t) s.started hcap

theorem C10_error_forwarding_witness :
    (busyQueue.handlerSet = true →
      (qstep busyQueue (QEvent.complete 3 (some 9))).handled =
        busyQueue.handled ++ [9] ∧
      (qstep busyQueue (QEvent.complete 3 (some 9))).logged = busyQueue.logged) ∧
    (busyQueue.handlerSet = false →
      (qstep busyQueue (QEvent.complete 3 (some 9))).handled = busyQueue.handled ∧
      (qstep busyQueue (QEvent.complete 3 (some 9))).logged =
        busyQueue.logged ++ [9]) ∧
    (busyQueue.taskQueue = [] →
      (qstep busyQueue (QEvent.complete 3 (some 9))).running =
        busyQueue.running.erase 3) ∧
    (busyQueue.isPaused = false → busyQueue.taskQueue = 4 :: [] →
      (busyQueue.running.erase 3).length < busyQueue.concurrency →
      ∃ l : List Nat,
        (qstep busyQueue (QEvent.complete 3 (some 9))).started =
          busyQueue.started ++ 4 :: l) :=
  C10_error_forwarding busyQueue 3 9 4 [] (by decide)

/-- C3: the claim fails on the code, which contradicts `onIdle`'s own
documentation ("resolves when all current and pending tasks have
completed").  With concurrency 1: after `add(0)` the call `onIdle()`
hands out the idle promise of generation 1; a further `add(1)` replaces
the stored resolver with generation 2's, orphaning generation 1; after
both tasks settle the queue is idle (nothing running, nothing pending)
yet generation 1 was never resolved — the promise returned by that
`onIdle()` call never resolves although the queue reached the idle
state. -/
theorem C3_onIdle_orphaned_promise :
    onIdleResult (qrun (initQueue 1) [QEvent.add 0]) = some 1 ∧
    (qrun (initQueue 1) [QEvent.add 0, QEvent.add 1,
      QEvent.complete 0 none, QEvent.complete 1 none]).running = [] ∧
    (qrun (initQueue 1) [QEvent.add 0, QEvent.add 1,
      QEvent.complete 0 none, QEvent.complete 1 none]).taskQueue = [] ∧
    ¬ (1 ∈ (qrun (initQueue 1) [QEvent.add 0, QEvent.add 1,
      QEvent.complete 0 none, QEvent.complete 1 none]).resolvedGens) := by
  decide

/-- C2: the claim fails on the code.  With `leading` and `trailing`
both enabled and `wait = 10`: a call at 0 fires on the leading edge, a
call at 5 arms a trailing invocation which fires at 15, and a fresh
call at 16 fires on the leading edge again — two invocations of `func`
only 1 ms apart, inside one 10 ms window.  The trace is valid (times
are monotone and the timer fires exactly at its expiry). -/
theorem C2_two_invocations_in_one_window :
    tvalidTrace ⟨true, true, 10⟩ thrInit
      [TEvent.call 0 0 1, TEvent.call 5 0 2, TEvent.fire 15,
       TEvent.call 16 0 3] = true ∧
    spaced1 10 (firedTimes (trun ⟨true, true, 10⟩ thrInit
      [TEvent.call 0 0 1, TEvent.call 5 0 2, TEvent.fire 15,
       TEvent.call 16 0 3])) = false := by
  decide

/-- C2 (amended): over every valid sequence of calls to the wrapper
and timer expiries (no `cancel`), at most two invocations of `func`
fall within any time window of length `wait`: any invocation and the
invocation two before it are at least `wait` ms apart.  Consecutive
invocations can be closer than `wait` (a trailing invocation followed
at once by a fresh leading one), so "at most once per window" must be
weakened to "at most twice per window". -/
theorem C2_amended_window_bound (cfg : ThrottleCfg) (tr : List TEvent)
    (hnc : noCancel tr = true) (hv : tvalidTrace cfg thrInit tr = true) :
    spaced2 cfg.wait (firedTimes (trun cfg thrInit tr)) = true :=
  (ThrInv_run cfg tr thrInit (ThrInv_init cfg) hnc hv).2.1

theorem C2_amended_window_bound_witness :
    noCancel [TEvent.call 0 0 1, TEvent.call 5 0 2, TEvent.fire 15] = true ∧
    tvalidTrace ⟨true, true, 10⟩ thrInit
      [TEvent.call 0 0 1, TEvent.call 5 0 2, TEvent.fire 15] = true ∧
    spaced2 10 (firedTimes (trun ⟨true, true, 10⟩ thrInit
      [TEvent.call 0 0 1, TEvent.call 5 0 2, TEvent.fire 15])) = true :=
  ⟨by decide, by decide,
   C2_amended_window_bound ⟨true, true, 10⟩
     [TEvent.call 0 0 1, TEvent.call 5 0 2, TEvent.fire 15]
     (by decide) (by decide)⟩

/-- C5: with `leading: true`, a call of the wrapper outside a throttle
window invokes `func` immediately and synchronously, with that call's
instant, `this` binding and arguments, and opens a window. -/
theorem C5_leading_edge_immediate (cfg : ThrottleCfg) (s : ThrState)
    (t x a : Nat) (hl : cfg.leading = true) (hs : s.inThrottle = false) :
    (throttledCall cfg s t x a).fired = ⟨t, x, a⟩ :: s.fired ∧
    (throttledCall cfg s t x a).inThrottle = true := by
  rw [throttledCall_lead cfg s t x a hs hl]
  exact ⟨rfl, rfl⟩

theorem C5_leading_edge_immediate_witness :
    (throttledCall ⟨true, true, 5⟩ thrInit 0 7 9).fired = ⟨0, 7, 9⟩ :: thrInit.fired ∧
    (throttledCall ⟨true, true, 5⟩ thrInit 0 7 9).inThrottle = true :=
  C5_leading_edge_immediate ⟨true, true, 5⟩ thrInit 0 7 9 rfl rfl

/-- C6: with `trailing: true`, a call received during a throttled
window does not invoke `func` but records itself as the pending
trailing call, re-arming the timeout `wait` ms after itself with its
own `this` binding and arguments (so the timer always holds the data
of the last call of the window); and when the timeout expires with a
pending trailing call, `func` is invoked exactly once with the stored
data, after which the pending call and the window are cleared, so no
second trailing invocation can happen. -/
theorem C6_trailing_edge_last_call (cfg : ThrottleCfg) (s : ThrState)
    (t x a : Nat) (htr : cfg.trailing = true) (hs : s.inThrottle = true) :
    (throttledCall cfg s t x a).fired = s.fired ∧
    (throttledCall cfg s t x a).lastFn = true ∧
    (throttledCall cfg s t x a).timer = some ⟨t + cfg.wait, x, a⟩ ∧
    (∀ c : CallData, s.lastFn = true → s.timer = some c →
      (timerFire cfg s).fired = c :: s.fired ∧
      (timerFire cfg s).lastFn = false ∧
      (timerFire cfg s).inThrottle = false ∧
      (timerFire cfg s).timer = none) := by
  refine ⟨?_, ?_, ?_, ?_⟩
  · rw [throttledCall_in cfg s t x a hs]
  · rw [throttledCall_in cfg s t x a hs]
  · rw [throttledCall_in cfg s t x a hs]
  · intro c hlf htm
    rw [timerFire_go cfg s c htm (by simp [htr, hlf])]
    exact ⟨rfl, rfl, rfl, rfl⟩

theorem C6_trailing_edge_last_call_witness :
    ((throttledCall ⟨true, true, 10⟩ midWindow 7 1 3).fired = midWindow.fired ∧
     (throttledCall ⟨true, true, 10⟩ midWindow 7 1 3).lastFn = true ∧
     (throttledCall ⟨true, true, 10⟩ midWindow 7 1 3).timer = some ⟨17, 1, 3⟩) ∧
    ((timerFire ⟨true, true, 10⟩ midWindow).fired = ⟨15, 0, 2⟩ :: midWindow.fired ∧
     (timerFire ⟨true, true, 10⟩ midWindow).lastFn = false ∧
     (timerFire ⟨true, true, 10⟩ midWindow).inThrottle = false ∧
     (timerFire ⟨true, true, 10⟩ midWindow).timer = none) := by
  have h := C6_trailing_edge_last_call ⟨true, true, 10⟩ midWindow 7 1 3 rfl (by decide)
  exact ⟨⟨h.1, h.2.1, h.2.2.1⟩, h.2.2.2 ⟨15, 0, 2⟩ (by decide) (by decide)⟩

/-- C7: `throttled.cancel()` discards any pending trailing invocation —
nothing fires at the cancel, the timeout and the recorded call are
cleared — and resets the throttle state, so a subsequent call (with
`leading: true`) starts a fresh window, firing immediately with its own
data and arming a timer that holds only the new call's data. -/
theorem C7_cancel_discards_pending (cfg : ThrottleCfg) (s : ThrState)
    (t u x a : Nat) (hl : cfg.leading = true) :
    (tstep cfg s (TEvent.cancel t)).fired = s.fired ∧
    (tstep cfg s (TEvent.cancel t)).timer = none ∧
    (tstep cfg s (TEvent.cancel t)).inThrottle = false ∧
    (tstep cfg s (TEvent.cancel t)).lastFn = false ∧
    (throttledCall cfg (tstep cfg s (TEvent.cancel t)) u x a).fired =
      ⟨u, x, a⟩ :: s.fired ∧
    (throttledCall cfg (tstep cfg s (TEvent.cancel t)) u x a).timer =
      some ⟨u + cfg.wait, x, a⟩ := by
  refine ⟨rfl, rfl, rfl, rfl, ?_, ?_⟩
  · rw [show tstep cfg s (TEvent.cancel t) = throttledCancel s t from rfl,
      throttledCall_lead cfg (throttledCancel s t) u x a rfl hl]
    rfl
  · rw [show tstep cfg s (TEvent.cancel t) = throttledCancel s t from rfl,
      throttledCall_lead cfg (throttledCancel s t) u x a rfl hl]

theorem C7_cancel_discards_pending_witness :
    (tstep ⟨true, true, 20⟩ midWindow2 (TEvent.cancel 8)).fired = midWindow2.fired ∧
    (tstep ⟨true, true, 20⟩ midWindow2 (TEvent.cancel 8)).timer = none ∧
    (tstep ⟨true, true, 20⟩ midWindow2 (TEvent.cancel 8)).inThrottle = false ∧
    (tstep ⟨true, true, 20⟩ midWindow2 (TEvent.cancel 8)).lastFn = false ∧
    (throttledCall ⟨true, true, 20⟩
      (tstep ⟨true, true, 20⟩ midWindow2 (TEvent.cancel 8)) 9 2 4).fired =
        ⟨9, 2, 4⟩ :: midWindow2.fired ∧
    (throttledCall ⟨true, true, 20⟩
      (tstep ⟨true, true, 20⟩ midWindow2 (TEvent.cancel 8)) 9 2 4).timer =
        some ⟨29, 2, 4⟩ :=
  C7_cancel_discards_pending ⟨true, true, 20⟩ midWindow2 8 9 2 4 rfl
